import Mathlib

/-!
Shallow embedding of `article-compiler` (`src/main.rs`): a static-site
generator turning a tree of markdown files into HTML pages.  Rust strings
become `String`, `OsString` becomes a pair of an optional decoded string and
a debug rendering, `PathBuf` becomes the list of components pushed into it,
and filesystem access observed by the program is carried as data on the
`DirEntry` model.  String primitives of Rust (`str::ends_with`,
`str::strip_suffix`, `str::replace`) are re-implemented on `List Char` so
that they evaluate by `decide`; they agree with Rust's byte-level versions
on valid UTF-8 (matches of a valid-UTF-8 pattern always fall on character
boundaries).
-/

namespace ArticleCompiler

/-- Model of `str::ends_with`: character-level suffix test. -/
def strEndsWith (s suffix : String) : Bool :=
  suffix.data.isSuffixOf s.data

/-- The prefix left by `str::strip_suffix` when the suffix is present. -/
def stripSuffixPrefix (s suffix : String) : String :=
  ⟨s.data.take (s.data.length - suffix.data.length)⟩

/-- Fuel-indexed body of `str::replace`: leftmost, non-overlapping matches.
The fuel is an upper bound on the number of characters consumed; with a
non-empty pattern (the only use in this program) every step consumes at
least one character, so fuel = length is exact. -/
def replaceAux (pat rep : List Char) : Nat → List Char → List Char
  | _, [] => []
  | 0, s => s
  | fuel + 1, c :: rest =>
    if pat.isPrefixOf (c :: rest) then
      rep ++ replaceAux pat rep fuel ((c :: rest).drop pat.length)
    else
      c :: replaceAux pat rep fuel rest

/-- Model of `str::replace` for a non-empty pattern. -/
def strReplace (s pat rep : String) : String :=
  ⟨replaceAux pat.data rep.data s.data.length s.data⟩

/-- One step of a node's lineage (`struct Ancestor` in `main.rs`):
`name` is the display name, `path` the URL segment. -/
structure Ancestor where
  name : String
  path : String
deriving DecidableEq, Repr

/-- Model of `std::ffi::OsString`: `valid?` is the result of
`OsString::into_string` (decodable as UTF-8 or not), `debug` is what the
`{:?}` formatter prints for it. -/
structure OsString where
  valid? : Option String
  debug : String
deriving DecidableEq, Repr

/-- An `OsString` holding ordinary UTF-8 text (its debug form quotes it). -/
def OsString.ofString (s : String) : OsString :=
  ⟨some s, "\"" ++ s ++ "\""⟩

/-- Model of `std::path::PathBuf`: the sequence of components pushed into
it (each push in the program pushes one file-name-like component). -/
abbrev PathBuf := List OsString

/-- Model of `PathBuf::push` at the level of the rendered string, for components
that are relative and non-verbatim (all components this program pushes):
a `/` separator is inserted whenever the buffer is non-empty and does not
already end with `/`. -/
def pushStr (acc s : String) : String :=
  if acc = "" then s
  else if strEndsWith acc "/" then acc ++ s
  else acc ++ "/" ++ s

/-- Model of `Path::to_str`: `some` of the rendered path iff every component is
valid UTF-8 (`PathBuf::to_str().unwrap()` panics exactly on `none`). -/
def PathBuf.toStr? (p : PathBuf) : Option String :=
  p.foldl
    (fun acc c =>
      match acc, c.valid? with
      | some a, some s => some (pushStr a s)
      | _, _ => none)
    (some "")

/-- The `.md → .html` / `README.md → index.html` rewrite applied to a file
name by `file_name` in `main.rs` (its `strip_suffix`/`replace` match). -/
def rewriteName (name : String) : String :=
  if strEndsWith name "README.md" then
    stripSuffixPrefix name "README.md" ++ "index.html"
  else
    strReplace name ".md" ".html"

/-- Embedding of `fn file_name(ancestors: &[Ancestor], name: &str) -> PathBuf`:
rewrites the name, then collects
`ancestors.iter().chain(once(name-ancestor)).skip(1)` path segments into a
`PathBuf`. -/
def file_name (ancestors : List Ancestor) (name : String) : PathBuf :=
  let name := rewriteName name
  ((ancestors ++ [({ name := name, path := name } : Ancestor)]).drop 1).map
    (fun item => OsString.ofString item.path)

/-- Embedding of `fn file_path`: the output path is the configured output directory
joined with `file_name` (joining a relative path pushes its components). -/
def file_path (outputDir : String) (ancestors : List Ancestor) (name : String) : PathBuf :=
  OsString.ofString outputDir :: file_name ancestors name

/-- One step of the `previous_path` accumulation in `fn breadcrumbs_html`:
`if previous_path == "/" { previous_path = format!("/{path}") } else { previous_path += &format!("/{path}") }`. -/
def pushSeg (previousPath path : String) : String :=
  if previousPath = "/" then "/" ++ path else previousPath ++ "/" ++ path

/-- The body of the loop in `fn breadcrumbs_html`, as a recursion over the
remaining ancestors carrying the accumulated `previous_path`; returns the
`result` vector of HTML fragments built by the loop. -/
def breadcrumbItems (fileName : String) : List Ancestor → String → List String
  | [], _ => []
  | a :: rest, previousPath =>
    let previousPath := pushSeg previousPath a.path
    if rest.isEmpty then
      if fileName = "README.md" then
        ["<span>" ++ a.name ++ "</span>"]
      else
        ["<a href=\"" ++ previousPath ++ "\">" ++ a.name ++ "</a>",
         "<span>" ++ fileName ++ "</span>"]
    else
      ("<a href=\"" ++ previousPath ++ "\">" ++ a.name ++ "</a>")
        :: breadcrumbItems fileName rest previousPath

/-- Embedding of `fn breadcrumbs_html(ancestors: &[Ancestor], file_name: &str) -> String`. -/
def breadcrumbs_html (ancestors : List Ancestor) (fileName : String) : String :=
  let result := String.intercalate " / " (breadcrumbItems fileName ancestors "")
  if result = "" then "" else result

/-- Embedding of `enum NodeContent<FileContent, DirectoryContent>` from `main.rs`. -/
inductive NodeContent (F D : Type) : Type where
  | Directory (d : D)
  | File (f : F)
deriving Repr

/-- Embedding of `struct MarkdownNode { content, file_name, ancestors }` from `main.rs`;
a directory's content is its optional `README.md` body plus its children. -/
inductive MarkdownNode : Type where
  | mk (content : NodeContent String (Option String × List MarkdownNode))
      (file_name : String) (ancestors : List Ancestor)

/-- Field accessor for `MarkdownNode.content`. -/
def MarkdownNode.content : MarkdownNode → NodeContent String (Option String × List MarkdownNode)
  | .mk c _ _ => c

/-- Field accessor for `MarkdownNode.file_name`. -/
def MarkdownNode.file_name : MarkdownNode → String
  | .mk _ n _ => n

/-- Field accessor for `MarkdownNode.ancestors`. -/
def MarkdownNode.ancestors : MarkdownNode → List Ancestor
  | .mk _ _ a => a

/-- Lexicographic code-point comparison of character lists; Rust's
byte-wise `str::cmp` coincides with it on valid UTF-8. -/
def charListLe : List Char → List Char → Bool
  | [], _ => true
  | _ :: _, [] => false
  | a :: as, b :: bs =>
    if a.toNat < b.toNat then true
    else if b.toNat < a.toNat then false
    else charListLe as bs

/-- The comparison `|a, b| a.file_name.cmp(&b.file_name)` used by
`directory_list_html`. -/
def listingLe (a b : MarkdownNode) : Prop :=
  charListLe a.file_name.data b.file_name.data = true

instance : DecidableRel listingLe := fun a b =>
  inferInstanceAs (Decidable (charListLe a.file_name.data b.file_name.data = true))

/-- Model of `itertools::sorted_by` with the file-name comparator: a stable sort.
Any two stable sorts under the same total comparator agree, so insertion
sort is extensionally the sort the program performs. -/
def sortedNodes (nodes : List MarkdownNode) : List MarkdownNode :=
  nodes.insertionSort listingLe

/-- One `<li>` of the generated directory listing (the closure inside
`directory_list_html`); the `.to_str().unwrap()` is modelled by `getD ""`,
justified by the totality theorem for `file_name` paths below. -/
def listItemHtml (node : MarkdownNode) : String :=
  let cls :=
    match node.content with
    | .Directory _ => "directory-listing"
    | .File _ => "file-listing"
  "<li class=\"" ++ cls ++ "\"><a href=\"/"
    ++ ((file_name node.ancestors node.file_name).toStr?.getD "")
    ++ "\">" ++ node.file_name ++ "</a></li>"

/-- Embedding of `fn directory_list_html(nodes: &[MarkdownNode]) -> String`. -/
def directory_list_html (nodes : List MarkdownNode) : String :=
  "<ul>" ++ ((sortedNodes nodes).map listItemHtml).foldl (· ++ ·) "" ++ "</ul>"

/-- Modelled from the spec: `src/templates/root.html` is pulled in with
`include_str!` but is not under `src/`; the spec describes it as a "page"
template "with placeholders for rendered body content and breadcrumb
fragment". Modelled as exactly those placeholders in a minimal frame. -/
def rootTemplate : String :=
  "<html><nav>\x7b\x7bbreadcrumbs\x7d\x7d</nav><main>\x7b\x7bcontent\x7d\x7d</main></html>"

/-- Modelled from the spec: `src/templates/directory_list.html` is pulled
in with `include_str!` but is not under `src/`; the spec describes it as a
"directory listing" template "with placeholders for the directory's
display name and the generated `<ul>` listing markup". -/
def directoryListTemplate : String :=
  "<html><h1>\x7b\x7bname\x7d\x7d</h1>\x7b\x7bcontent\x7d\x7d</html>"

/-- Embedding of `fn wrap_directory(name: &str, content: &str) -> String`. -/
def wrap_directory (name content : String) : String :=
  strReplace (strReplace directoryListTemplate "\x7b\x7bname\x7d\x7d" name) "\x7b\x7bcontent\x7d\x7d" content

/-- Embedding of `fn wrap_root(ancestors: &[Ancestor], content: &str, name: &str) -> String`. -/
def wrap_root (ancestors : List Ancestor) (content name : String) : String :=
  strReplace (strReplace rootTemplate "\x7b\x7bcontent\x7d\x7d" content)
    "\x7b\x7bbreadcrumbs\x7d\x7d" (breadcrumbs_html ancestors name)

/-- Embedding of `struct HtmlNode { path, content }` from `main.rs`; a directory's
content is its index page HTML plus its rendered children. -/
inductive HtmlNode : Type where
  | mk (path : PathBuf) (content : NodeContent String (String × List HtmlNode))

/-- Field accessor for `HtmlNode.path`. -/
def HtmlNode.path : HtmlNode → PathBuf
  | .mk p _ => p

/-- Field accessor for `HtmlNode.content`. -/
def HtmlNode.content : HtmlNode → NodeContent String (String × List HtmlNode)
  | .mk _ c => c

/-- The page HTML a node's own output file receives (the `File` payload,
or a directory's index payload). -/
def HtmlNode.pageHtml (n : HtmlNode) : String :=
  match n.content with
  | .File s => s
  | .Directory (s, _) => s

mutual

/-- Embedding of `impl From<MarkdownNode> for HtmlNode`, parameterised by the external
markdown converter `md` (`markdown::to_html`) and by the configured output
directory (`output_dir()`). -/
def htmlOfMarkdown (md : String → String) (outputDir : String) : MarkdownNode → HtmlNode
  | .mk (.File content) fileName ancestors =>
    .mk (file_path outputDir ancestors fileName)
      (.File (wrap_root ancestors (md content) fileName))
  | .mk (.Directory (readme, children)) fileName ancestors =>
    .mk (file_path outputDir ancestors fileName)
      (.Directory
        (wrap_root ancestors
          (match readme with
            | some content => md content
            | none => wrap_directory fileName (directory_list_html children))
          fileName,
          htmlChildren md outputDir children))

/-- Embedding of `children.into_iter().map(Self::from).collect()` of the directory arm. -/
def htmlChildren (md : String → String) (outputDir : String) :
    List MarkdownNode → List HtmlNode
  | [] => []
  | c :: cs => htmlOfMarkdown md outputDir c :: htmlChildren md outputDir cs

end

/-- The file-name decoding at the top of `TryFrom<DirEntry> for FileNode`:
`value.file_name().into_string().unwrap_or_else(|n| format!("invalid UTF-8 filename: '{n:?}'"))`. -/
def decodeName (fn : OsString) : String :=
  match fn.valid? with
  | some s => s
  | none => "invalid UTF-8 filename: '" ++ fn.debug ++ "'"

/-- A directory entry together with every filesystem observation the
program makes through it.  One constructor per outcome:
* `metaErr`: `entry.metadata()` fails;
* `fileOk`/`fileErr`: a non-directory entry whose `fs::read_to_string`
  succeeds with the given content / fails with the given error;
* `dirOk`: a directory entry whose `fs::read_dir` succeeds; `readme` is
  what `fs::read_to_string(path.join("README.md")).ok()` later returns,
  and `entries` are the `io::Result<DirEntry>` items the `ReadDir`
  iterator yields;
* `dirErr`: a directory entry whose `fs::read_dir` fails. -/
inductive DirEntry : Type where
  | metaErr (fileName : OsString) (err : String)
  | fileOk (fileName : OsString) (content : String)
  | fileErr (fileName : OsString) (err : String)
  | dirOk (fileName : OsString) (readme : Option String)
      (entries : List (Except String DirEntry))
  | dirErr (fileName : OsString) (err : String)

/-- Embedding of `struct FileNode` from `main.rs`.  The Rust struct stores `path`; its
only later use is `fs::read_to_string(path.join("README.md")).ok()`, so
the model carries that observation directly as `readme`. -/
structure FileNode where
  file_name : String
  readme : Option String
  content : NodeContent String (List (Except String DirEntry))
  ancestors : List Ancestor

/-- Embedding of `impl TryFrom<DirEntry> for FileNode` (ancestors left empty). -/
def fileNodeOfEntry : DirEntry → Except String FileNode
  | .metaErr fn err =>
    .error ("unable to read metadata for '" ++ decodeName fn ++ "': " ++ err)
  | .fileOk fn content =>
    .ok ⟨decodeName fn, none, .File content, []⟩
  | .fileErr fn err =>
    .error ("unable to read file '" ++ decodeName fn ++ "': " ++ err)
  | .dirOk fn readme entries =>
    .ok ⟨decodeName fn, readme, .Directory entries, []⟩
  | .dirErr fn err =>
    .error ("unable to read directory '" ++ decodeName fn ++ "': " ++ err)

/-- Embedding of `impl TryFrom<(Vec<Ancestor>, DirEntry)> for FileNode`: as above but
with the given ancestors. -/
def fileNodeOfAncEntry (ancestors : List Ancestor) (entry : DirEntry) :
    Except String FileNode :=
  match fileNodeOfEntry entry with
  | .error e => .error e
  | .ok f => .ok { f with ancestors := ancestors }

/-- The ancestor-chain extension built in `TryFrom<FileNode> for
MarkdownNode` (`file_ancestors`): append the directory itself, with an
empty URL segment when the chain was empty (the root case). -/
def extendChain (ancestors : List Ancestor) (fileName : String) : List Ancestor :=
  ancestors ++
    [{ name := fileName,
       path := if ancestors.isEmpty then "" else fileName }]

mutual

/-- The composition `FileNode::try_from((ancestors, entry))` followed by
`MarkdownNode::try_from`, fused into one structural recursion over
`DirEntry` (the theorem `markdownOfEntry_eq` below factors it back into
the two Rust impls). -/
def markdownOfEntry (ancestors : List Ancestor) : DirEntry → Except String MarkdownNode
  | .metaErr fn err =>
    .error ("unable to read metadata for '" ++ decodeName fn ++ "': " ++ err)
  | .fileOk fn content =>
    .ok (.mk (.File content) (decodeName fn) ancestors)
  | .fileErr fn err =>
    .error ("unable to read file '" ++ decodeName fn ++ "': " ++ err)
  | .dirOk fn readme entries =>
    let fileName := decodeName fn
    match markdownEntries (extendChain ancestors fileName) fileName entries with
    | .error e => .error e
    | .ok children =>
      .ok (.mk (.Directory (readme, children)) fileName ancestors)
  | .dirErr fn err =>
    .error ("unable to read directory '" ++ decodeName fn ++ "': " ++ err)

/-- The `entries.map(...).collect::<Result<Vec<_>, _>>()?` chain of the
directory arm of `TryFrom<FileNode> for MarkdownNode`: each `ReadDir` item
error is wrapped as "unable to get child in directory ...", each entry is
converted and recursed into, and the first error short-circuits the
collection. -/
def markdownEntries (ancestors : List Ancestor) (dirName : String) :
    List (Except String DirEntry) → Except String (List MarkdownNode)
  | [] => .ok []
  | .error err :: _ =>
    .error ("unable to get child in directory " ++ dirName ++ ": " ++ err)
  | .ok e :: rest =>
    match markdownOfEntry ancestors e with
    | .error err => .error err
    | .ok m =>
      match markdownEntries ancestors dirName rest with
      | .error err => .error err
      | .ok ms => .ok (m :: ms)

end

/-- Embedding of `impl TryFrom<FileNode> for MarkdownNode`: a file becomes a leaf; a
directory extends the ancestor chain, converts its entries, and pairs the
optional README body with the children. -/
def markdownOfFileNode : FileNode → Except String MarkdownNode
  | ⟨fileName, _, .File content, ancestors⟩ =>
    .ok (.mk (.File content) fileName ancestors)
  | ⟨fileName, readme, .Directory entries, ancestors⟩ =>
    match markdownEntries (extendChain ancestors fileName) fileName entries with
    | .error e => .error e
    | .ok children =>
      .ok (.mk (.Directory (readme, children)) fileName ancestors)

/-- The root node built in `main`: display name `ROOT_TITLE`, content the
entries of `articles/`, empty ancestors; `readme` models
`read_to_string("articles/README.md").ok()`. -/
def loadRoot (title : String) (readme : Option String)
    (entries : List (Except String DirEntry)) : Except String MarkdownNode :=
  markdownOfFileNode ⟨title, readme, .Directory entries, []⟩

/-- The invariant of claim C9 on one chain: empty, or the first (root)
ancestor contributes no URL segment. -/
def chainOkB : List Ancestor → Bool
  | [] => true
  | a :: _ => a.path = ""

mutual

/-- All ancestor chains recorded in a markdown tree satisfy `chainOkB`. -/
def nodeChainsOk : MarkdownNode → Bool
  | .mk (.File _) _ anc => chainOkB anc
  | .mk (.Directory (_, children)) _ anc => chainOkB anc && nodesChainsOk children

/-- Conjunction of `nodeChainsOk` over a list of children. -/
def nodesChainsOk : List MarkdownNode → Bool
  | [] => true
  | c :: cs => nodeChainsOk c && nodesChainsOk cs

end

/-- Spec-side predicate "the string ends in `suffix`". -/
def endsIn (s suffix : String) : Prop :=
  ∃ p, s = p ++ suffix

/-- Whether `sub` occurs as a contiguous substring of `s` (used to state
"the reported error names that file's path"). -/
def strContainsSub (s sub : String) : Bool :=
  s.data.tails.any (sub.data.isPrefixOf ·)

/-- The href the claim (C4) predicts for the `i`-th breadcrumb link:
`"/" + seg_1 + "/" + seg_2 + ... + "/" + seg_(i+1)`, one `/` appended per
step without exception. -/
def claimHref (ancestors : List Ancestor) (i : Nat) : String :=
  ((ancestors.take (i + 1)).map Ancestor.path).foldl (fun acc p => acc ++ "/" ++ p) ""

/-- Join strings with `/` between consecutive elements. -/
def joinSep : List String → String
  | [] => ""
  | [s] => s
  | s :: rest => s ++ "/" ++ joinSep rest

/-- The accumulated `previous_path` of the breadcrumb loop in closed form:
one step per segment, except that steps taken while the accumulated prefix
is exactly `"/"` replace it instead of appending — equivalently, leading
empty segments collapse into the single leading `/`. -/
def runningHref (ancestors : List Ancestor) (i : Nat) : String :=
  "/" ++ joinSep (((ancestors.take (i + 1)).map Ancestor.path).dropWhile (· = ""))

end ArticleCompiler


namespace ArticleCompiler

/-! ### Bridging and helper lemmas -/

/-- The fused loader recursion agrees with the two-stage Rust pipeline
`FileNode::try_from((ancestors, entry))` followed by
`MarkdownNode::try_from`. -/
theorem markdownOfEntry_eq (ancestors : List Ancestor) (e : DirEntry) :
    markdownOfEntry ancestors e =
      match fileNodeOfAncEntry ancestors e with
      | .error err => .error err
      | .ok f => markdownOfFileNode f := by
  cases e <;> rfl

/-- Rendering a `PathBuf` whose components all come from Rust `String`s
succeeds and folds `pushStr` over them. -/
theorem toStr?_map_ofString (l : List String) :
    PathBuf.toStr? (l.map OsString.ofString) = some (l.foldl pushStr "") := by
  suffices h : ∀ (acc : String),
      List.foldl
        (fun acc c =>
          match acc, c.valid? with
          | some a, some s => some (pushStr a s)
          | _, _ => none)
        (some acc) (l.map OsString.ofString) = some (l.foldl pushStr acc) from h ""
  induction l with
  | nil => intro acc; rfl
  | cons s t ih => intro acc; simpa [OsString.ofString] using ih (pushStr acc s)

/-- Unfolding of `file_name` as a map of `OsString.ofString` over plain segments. -/
theorem file_name_eq_map (ancestors : List Ancestor) (name : String) :
    file_name ancestors name =
      (((ancestors ++ [({ name := rewriteName name, path := rewriteName name } : Ancestor)]).drop 1).map
        Ancestor.path).map OsString.ofString := by
  simp [file_name, List.map_map]
  rfl

/-- Unfolding of `file_name` under a non-empty ancestor chain: the head (root) segment
is dropped and the rewritten name is the last component. -/
theorem file_name_cons (a : Ancestor) (ancestors : List Ancestor) (name : String) :
    file_name (a :: ancestors) name =
      (ancestors.map fun x => OsString.ofString x.path) ++
        [OsString.ofString (rewriteName name)] := by
  simp [file_name]

/-- The name rewrite sends `README.md` to `index.html`. -/
theorem rewriteName_readme : rewriteName "README.md" = "index.html" := by decide

/-- A `PathBuf` push always leaves the pushed component as a suffix. -/
theorem pushStr_endsIn (acc s : String) : endsIn (pushStr acc s) s := by
  unfold pushStr
  split
  · exact ⟨"", by simp⟩
  split
  · exact ⟨acc, rfl⟩
  · exact ⟨acc ++ "/", rfl⟩

/-! ### C1: README never collides with a non-README sibling -/

/-- C1, as stated, is false: under the single root ancestor, the sibling
name `index.md` (distinct from `README.md`) is rewritten to `index.html`
and collides with `README.md`; and under an empty ancestor chain every
name collapses to the empty relative path. -/
theorem c1_collision_counterexample :
    ("index.md" ≠ "README.md" ∧
      file_name [⟨"root", ""⟩] "index.md" = file_name [⟨"root", ""⟩] "README.md") ∧
    ("other.txt" ≠ "README.md" ∧
      file_name [] "other.txt" = file_name [] "README.md") := by
  refine ⟨⟨by decide, by decide⟩, ⟨by decide, by decide⟩⟩

/-- C1 (amended): for every non-empty ancestor chain and every file name
whose rewritten form is not `index.html`, the Path Namer keeps
`README.md` apart from that sibling. -/
theorem c1_readme_no_collision (ancestors : List Ancestor) (f : String)
    (hA : ancestors ≠ []) (hf : rewriteName f ≠ "index.html") :
    file_name ancestors "README.md" ≠ file_name ancestors f := by
  obtain ⟨a, rest, rfl⟩ := List.exists_cons_of_ne_nil hA
  intro h
  rw [file_name_cons, file_name_cons] at h
  have h2 := List.append_cancel_left h
  have h3 : OsString.ofString (rewriteName "README.md") = OsString.ofString (rewriteName f) := by
    simpa using h2
  have h4 : rewriteName "README.md" = rewriteName f := by
    simpa [OsString.ofString] using congrArg OsString.valid? h3
  rw [rewriteName_readme] at h4
  exact hf h4.symm

/-- Witness for `c1_readme_no_collision` at a concrete input. -/
theorem c1_readme_no_collision_witness :
    (([⟨"root", ""⟩] : List Ancestor) ≠ [] ∧ rewriteName "a.md" ≠ "index.html") ∧
      file_name [⟨"root", ""⟩] "README.md" ≠ file_name [⟨"root", ""⟩] "a.md" :=
  ⟨⟨by decide, by decide⟩, c1_readme_no_collision [⟨"root", ""⟩] "a.md" (by decide) (by decide)⟩

/-! ### C2: README paths end in index.html -/

/-- C2, as stated ("including the empty chain"), is false: with an empty
ancestor chain the `skip(1)` drops the rewritten name itself, yielding the
empty relative path, which does not end in `index.html`. -/
theorem c2_empty_chain_counterexample :
    (file_name [] "README.md").toStr? = some "" ∧ ¬ endsIn "" "index.html" := by
  refine ⟨by decide, ?_⟩
  rintro ⟨p, hp⟩
  have h := congrArg String.length hp
  rw [String.length_append] at h
  have h0 : ("" : String).length = 0 := rfl
  have h10 : ("index.html" : String).length = 10 := rfl
  omega

/-- C2 (amended): for every non-empty ancestor chain the relative path
computed for `README.md` renders successfully and ends in `index.html`. -/
theorem c2_readme_ends_in_index (ancestors : List Ancestor) (hA : ancestors ≠ []) :
    ∃ s, (file_name ancestors "README.md").toStr? = some s ∧ endsIn s "index.html" := by
  obtain ⟨a, rest, rfl⟩ := List.exists_cons_of_ne_nil hA
  rw [file_name_cons, rewriteName_readme]
  have hmap : (rest.map fun x => OsString.ofString x.path) ++ [OsString.ofString "index.html"]
      = ((rest.map Ancestor.path) ++ ["index.html"]).map OsString.ofString := by
    simp [List.map_map]
  rw [hmap, toStr?_map_ofString]
  refine ⟨_, rfl, ?_⟩
  rw [List.foldl_append]
  exact pushStr_endsIn _ _

/-- Witness for `c2_readme_ends_in_index` at a concrete input. -/
theorem c2_readme_ends_in_index_witness :
    (([⟨"root", ""⟩] : List Ancestor) ≠ []) ∧
      ∃ s, (file_name [⟨"root", ""⟩] "README.md").toStr? = some s ∧ endsIn s "index.html" :=
  ⟨by decide, c2_readme_ends_in_index [⟨"root", ""⟩] (by decide)⟩

/-! ### C7: breadcrumb for a directory's own README -/

/-- C7: for the two-step chain `a / b` and current file `README.md`, the
breadcrumb renderer emits the parent link, then a plain span for the last
ancestor, and no trailing label. -/
theorem c7_breadcrumb_readme :
    breadcrumbs_html [⟨"a", "a"⟩, ⟨"b", "b"⟩] "README.md" =
      "<a href=\"/a\">a</a> / <span>b</span>" := by decide

/-! ### C10: file_name paths always convert back to strings -/

/-- C10: every `PathBuf` built by `file_name` consists solely of valid
UTF-8 components, so `to_str()` is always `some` and the `unwrap` in
`directory_list_html` never panics. -/
theorem c10_file_name_to_str_total (ancestors : List Ancestor) (name : String) :
    ((file_name ancestors name).toStr?).isSome = true := by
  rw [file_name_eq_map, toStr?_map_ofString]
  rfl

end ArticleCompiler

namespace ArticleCompiler

/-! ### C3: which file name feeds a directory page's breadcrumbs -/

/-- C3, as stated, is false: the rendered index page of a directory with a
README is built with the directory's own `file_name`, so its breadcrumb
fragment differs from `render_breadcrumbs(ancestors, "README.md")` (here
with the external markdown converter instantiated to the identity). -/
theorem c3_breadcrumb_counterexample :
    (htmlOfMarkdown (fun s => s) "build"
        (.mk (.Directory (some "hello", [])) "b" [⟨"root", ""⟩, ⟨"a", "a"⟩])).pageHtml ≠
      wrap_root [⟨"root", ""⟩, ⟨"a", "a"⟩] "hello" "README.md" := by decide

/-- C3 (amended): the index page of a directory node with README present
is `wrap_root` of the converted README under the directory's **own**
file name — its breadcrumbs are `breadcrumbs_html(ancestors, file_name)`,
not `breadcrumbs_html(ancestors, "README.md")`. -/
theorem c3_dir_breadcrumbs_use_own_name (md : String → String) (outDir name : String)
    (anc : List Ancestor) (readme : String) (children : List MarkdownNode) :
    (htmlOfMarkdown md outDir (.mk (.Directory (some readme, children)) name anc)).pageHtml =
      wrap_root anc (md readme) name := rfl

/-! ### C5: undecodable file names degrade to a placeholder -/

/-- C5, as stated, is false in its last part: an entry with an
undecodable name is *not* forced into a File node carrying the error
text — a directory stays a Directory node, and a readable file keeps its
real content; only the name is replaced by the placeholder. -/
theorem c5_placeholder_counterexample :
    markdownOfEntry [] (.dirOk ⟨none, "ZZ"⟩ none []) =
        .ok (.mk (.Directory (none, [])) "invalid UTF-8 filename: 'ZZ'" []) ∧
      markdownOfEntry [] (.fileOk ⟨none, "ZZ"⟩ "hello") =
        .ok (.mk (.File "hello") "invalid UTF-8 filename: 'ZZ'" []) ∧
      "hello" ≠ "invalid UTF-8 filename: 'ZZ'" :=
  ⟨rfl, rfl, by decide⟩

/-- C5 (amended): an undecodable file name is replaced by the synthetic
placeholder embedding the debug rendering of the name; the build does not
abort, the entry's siblings are still traversed, and the entry itself is
recorded with its actual kind and content under the placeholder name. -/
theorem c5_placeholder_continues (anc : List Ancestor) (dirName dbg content : String)
    (readme : Option String) (rest : List (Except String DirEntry)) :
    markdownEntries anc dirName (.ok (.fileOk ⟨none, dbg⟩ content) :: rest) =
        (markdownEntries anc dirName rest).map
          (fun ms => .mk (.File content) ("invalid UTF-8 filename: '" ++ dbg ++ "'") anc :: ms) ∧
      markdownOfEntry anc (.dirOk ⟨none, dbg⟩ readme []) =
        .ok (.mk (.Directory (readme, [])) ("invalid UTF-8 filename: '" ++ dbg ++ "'") anc) := by
  constructor
  · cases h : markdownEntries anc dirName rest <;>
      simp [markdownEntries, markdownOfEntry, decodeName, h, Except.map]
  · rfl

/-! ### C6: read failures abort the build -/

/-- C6, as stated, is false in its last part: the failure does abort the
whole load, but the reported error carries only the entry's bare file
name, not its path — for `a/b.md` the message does not contain `a/b.md`. -/
theorem c6_path_counterexample :
    loadRoot "root" none
        [.ok (.dirOk (OsString.ofString "a") none
          [.ok (.fileErr (OsString.ofString "b.md") "boom")])] =
        .error "unable to read file 'b.md': boom" ∧
      strContainsSub "unable to read file 'b.md': boom" "a/b.md" = false :=
  ⟨rfl, by decide⟩

/-- C6 (amended): a file read failure immediately aborts the surrounding
collection with the message "unable to read file '<file name>': <cause>"
(the bare file name, not the path), and a failing child collection aborts
the enclosing directory conversion with the error unchanged, so the first
read failure aborts the whole load. -/
theorem c6_read_error_aborts (anc : List Ancestor) (dirName : String) (fn : OsString)
    (err : String) (rest : List (Except String DirEntry)) :
    markdownEntries anc dirName (.ok (.fileErr fn err) :: rest) =
        .error ("unable to read file '" ++ decodeName fn ++ "': " ++ err) ∧
      ∀ (readme : Option String) (entries : List (Except String DirEntry)) (msg : String),
        markdownEntries (extendChain anc (decodeName fn)) (decodeName fn) entries = .error msg →
        markdownOfEntry anc (.dirOk fn readme entries) = .error msg := by
  constructor
  · rfl
  · intro readme entries msg h
    simp [markdownOfEntry, h]

/-- Witness for `c6_read_error_aborts` at concrete inputs. -/
theorem c6_read_error_aborts_witness :
    markdownEntries [] "articles" [.ok (.fileErr (OsString.ofString "b.md") "boom")] =
        .error "unable to read file 'b.md': boom" ∧
      markdownOfEntry [] (.dirOk (OsString.ofString "a") none
          [.ok (.fileErr (OsString.ofString "b.md") "boom")]) =
        .error "unable to read file 'b.md': boom" :=
  ⟨(c6_read_error_aborts [] "articles" (OsString.ofString "b.md") "boom" []).1,
    (c6_read_error_aborts [] "articles" (OsString.ofString "a") "x" []).2 none
      [.ok (.fileErr (OsString.ofString "b.md") "boom")]
      "unable to read file 'b.md': boom" rfl⟩

end ArticleCompiler

namespace ArticleCompiler

/-! ### C4: breadcrumb link hrefs -/

/-- A string of positive length is not empty. -/
theorem length_pos_ne_empty (s : String) (h : 0 < s.length) : s ≠ "" := by
  intro hs
  subst hs
  simp at h

/-- A non-empty string has positive length. -/
theorem ne_empty_length_pos (s : String) (h : s ≠ "") : 0 < s.length := by
  by_contra hlen
  apply h
  have h0 : s.length = 0 := by omega
  cases s with
  | mk d =>
    cases d with
    | nil => rfl
    | cons a t => simp [String.length] at h0

/-- A `joinSep` of a cons is at least as long as its head. -/
theorem joinSep_cons_length (x : String) (xs : List String) :
    x.length ≤ (joinSep (x :: xs)).length := by
  cases xs with
  | nil => exact Nat.le_refl _
  | cons y ys =>
    simp [joinSep, String.length_append]
    omega

/-- Appending one element to a non-empty list inserts one separator. -/
theorem joinSep_append (l : List String) (b : String) (h : l ≠ []) :
    joinSep (l ++ [b]) = joinSep l ++ "/" ++ b := by
  induction l with
  | nil => exact absurd rfl h
  | cons s t ih =>
    cases t with
    | nil => simp [joinSep]
    | cons u v =>
      have ih' := ih (by simp)
      simp only [List.cons_append, List.append_eq, joinSep] at ih' ⊢
      rw [ih']
      simp [String.append_assoc]

/-- The head surviving `dropWhile` falsifies the predicate. -/
theorem dropWhile_head_false {α : Type} (p : α → Bool) :
    ∀ (l : List α) (x : α) (xs : List α), l.dropWhile p = x :: xs → p x = false := by
  intro l
  induction l with
  | nil => intro x xs h; simp at h
  | cons a t ih =>
    intro x xs h
    rw [List.dropWhile_cons] at h
    by_cases ha : p a = true
    · rw [if_pos ha] at h
      exact ih x xs h
    · rw [if_neg ha] at h
      cases h
      simpa using ha

/-- Closed form of the breadcrumb `previous_path` accumulation: starting
from the empty string and taking at least one step, the accumulated prefix
is `/` followed by the `/`-join of the segments with their leading empty
segments dropped. -/
theorem foldl_pushSeg_closed :
    ∀ (segs : List String), segs ≠ [] →
      segs.foldl pushSeg "" = "/" ++ joinSep (segs.dropWhile (· = "")) := by
  intro segs
  induction segs using List.reverseRecOn with
  | nil => intro h; exact absurd rfl h
  | append_singleton l p ih =>
    intro _
    rw [List.foldl_append]
    rcases eq_or_ne l [] with rfl | hl
    · simp only [List.foldl_nil, List.nil_append]
      by_cases hp : p = ""
      · subst hp; decide
      · simp [pushSeg, joinSep, List.dropWhile, hp, String.empty_append]
    · rw [ih hl, List.dropWhile_append]
      rcases hd : l.dropWhile (fun x => decide (x = "")) with _ | ⟨x, xs⟩
      · simp only [List.isEmpty_nil, if_true, List.foldl_cons, List.foldl_nil]
        by_cases hp : p = ""
        · subst hp
          decide
        · rw [show joinSep ([] : List String) = "" from rfl,
            show ("/" : String) ++ "" = "/" from rfl, List.dropWhile_cons,
            if_neg (by simpa using hp)]
          unfold pushSeg
          rw [if_pos rfl, show joinSep [p] = p from rfl]
      · have hx : x ≠ "" := by
          have := dropWhile_head_false (fun x => decide (x = "")) l x xs hd
          simpa using this
        have hne : ("/" : String) ++ joinSep (x :: xs) ≠ "/" := by
          intro hEq
          have hlen := congrArg String.length hEq
          rw [String.length_append] at hlen
          have h1 : ("/" : String).length = 1 := rfl
          have hx' := ne_empty_length_pos x hx
          have hj := joinSep_cons_length x xs
          omega
        simp only [List.isEmpty_cons, Bool.false_eq_true, if_false,
          List.foldl_cons, List.foldl_nil]
        unfold pushSeg
        rw [if_neg hne, joinSep_append (x :: xs) p (by simp)]
        simp [String.append_assoc]

/-- The `i`-th (`i`+1 < length) fragment of the breadcrumb loop is a link
whose href is the `pushSeg`-fold of the first `i`+1 segments and whose
text is the `i`-th ancestor's name. -/
theorem breadcrumbItems_link (f : String) :
    ∀ (ancestors : List Ancestor) (i : Nat) (prev : String), i + 1 < ancestors.length →
      (breadcrumbItems f ancestors prev)[i]? =
        some ("<a href=\"" ++ ((ancestors.take (i + 1)).map Ancestor.path).foldl pushSeg prev
          ++ "\">" ++ ((ancestors.map Ancestor.name)[i]?.getD "") ++ "</a>") := by
  intro ancestors
  induction ancestors with
  | nil => intro i prev h; simp at h
  | cons a rest ih =>
    intro i prev h
    cases rest with
    | nil => simp at h
    | cons b rest' =>
      rw [show breadcrumbItems f (a :: b :: rest') prev =
          ("<a href=\"" ++ pushSeg prev a.path ++ "\">" ++ a.name ++ "</a>")
            :: breadcrumbItems f (b :: rest') (pushSeg prev a.path) from rfl]
      cases i with
      | zero => simp
      | succ j =>
        have h' : j + 1 < (b :: rest').length := by
          simpa using Nat.lt_of_succ_lt_succ h
        simp only [List.getElem?_cons_succ]
        rw [ih j (pushSeg prev a.path) h']
        simp

/-- C4, as stated, is false: after the root's empty segment the
accumulated prefix is exactly `/`, and the next step replaces it instead
of appending another `/`; the second link's href is `/a`, not the claim's
`//a`. -/
theorem c4_href_counterexample :
    (breadcrumbItems "c.md" [⟨"root", ""⟩, ⟨"a", "a"⟩, ⟨"b", "b"⟩] "")[1]? =
        some "<a href=\"/a\">a</a>" ∧
      claimHref [⟨"root", ""⟩, ⟨"a", "a"⟩, ⟨"b", "b"⟩] 1 = "//a" ∧
      "<a href=\"/a\">a</a>" ≠
        "<a href=\"" ++ claimHref [⟨"root", ""⟩, ⟨"a", "a"⟩, ⟨"b", "b"⟩] 1 ++ "\">a</a>" :=
  ⟨by decide, by decide, by decide⟩

/-- C4 (amended): the link emitted for the `i`-th non-last ancestor has
href `/` followed by the `/`-join of the first `i`+1 path segments with
their leading empty segments collapsed (one `/` per step, except that
steps taken while the prefix is exactly `/` replace it). -/
theorem c4_link_href (ancestors : List Ancestor) (f : String) (i : Nat)
    (h : i + 1 < ancestors.length) :
    (breadcrumbItems f ancestors "")[i]? =
      some ("<a href=\"" ++ runningHref ancestors i
        ++ "\">" ++ ((ancestors.map Ancestor.name)[i]?.getD "") ++ "</a>") := by
  rw [breadcrumbItems_link f ancestors i "" h, runningHref]
  rw [foldl_pushSeg_closed]
  intro hnil
  have hlen := congrArg List.length hnil
  simp only [List.length_map, List.length_take, List.length_nil] at hlen
  omega

/-- Witness for `c4_link_href` at a concrete input. -/
theorem c4_link_href_witness :
    1 + 1 < ([⟨"root", ""⟩, ⟨"a", "a"⟩, ⟨"b", "b"⟩] : List Ancestor).length ∧
      (breadcrumbItems "c.md" [⟨"root", ""⟩, ⟨"a", "a"⟩, ⟨"b", "b"⟩] "")[1]? =
        some ("<a href=\"" ++ runningHref [⟨"root", ""⟩, ⟨"a", "a"⟩, ⟨"b", "b"⟩] 1
          ++ "\">" ++ (([⟨"root", ""⟩, ⟨"a", "a"⟩, ⟨"b", "b"⟩].map Ancestor.name)[1]?.getD "")
          ++ "</a>") :=
  ⟨by decide, c4_link_href [⟨"root", ""⟩, ⟨"a", "a"⟩, ⟨"b", "b"⟩] "c.md" 1 (by decide)⟩

end ArticleCompiler

namespace ArticleCompiler

/-! ### C8: directory listing order and tags -/

/-- Totality of `charListLe`. -/
theorem charListLe_total : ∀ (as bs : List Char),
    charListLe as bs = true ∨ charListLe bs as = true := by
  intro as
  induction as with
  | nil => intro bs; left; rfl
  | cons a t ih =>
    intro bs
    cases bs with
    | nil => right; rfl
    | cons b u =>
      rcases Nat.lt_trichotomy a.toNat b.toNat with h | h | h
      · left
        simp [charListLe, h]
      · have := ih u
        simpa [charListLe, h] using this
      · right
        simp [charListLe, h]

/-- Transitivity of `charListLe`. -/
theorem charListLe_trans : ∀ (as bs cs : List Char),
    charListLe as bs = true → charListLe bs cs = true → charListLe as cs = true := by
  intro as
  induction as with
  | nil => intro bs cs h1 h2; rfl
  | cons a t ih =>
    intro bs cs h1 h2
    cases bs with
    | nil => simp [charListLe] at h1
    | cons b u =>
      cases cs with
      | nil => simp [charListLe] at h2
      | cons c v =>
        simp only [charListLe] at h1 h2 ⊢
        by_cases hab : a.toNat < b.toNat
        · by_cases hbc : b.toNat < c.toNat
          · rw [if_pos (by omega)]
          · rw [if_neg hbc] at h2
            by_cases hcb : c.toNat < b.toNat
            · rw [if_pos hcb] at h2
              exact absurd h2 (by simp)
            · rw [if_pos (by omega)]
        · rw [if_neg hab] at h1
          by_cases hba : b.toNat < a.toNat
          · rw [if_pos hba] at h1
            exact absurd h1 (by simp)
          · rw [if_neg hba] at h1
            by_cases hbc : b.toNat < c.toNat
            · rw [if_pos (by omega)]
            · rw [if_neg hbc] at h2
              by_cases hcb : c.toNat < b.toNat
              · rw [if_pos hcb] at h2
                exact absurd h2 (by simp)
              · rw [if_neg hcb] at h2
                rw [if_neg (by omega), if_neg (by omega)]
                exact ih u v h1 h2

instance : IsTotal MarkdownNode listingLe :=
  ⟨fun a b => charListLe_total a.file_name.data b.file_name.data⟩

instance : IsTrans MarkdownNode listingLe :=
  ⟨fun a b c => charListLe_trans a.file_name.data b.file_name.data c.file_name.data⟩

/-- C8: the generated listing has one `<li>` per child; the children are
emitted in lexicographic (case-sensitive) order of their raw file names,
directories and files interleaved in one permutation of the input; each
item carries `directory-listing` or `file-listing` according to its kind;
and on the children `zeta.md` (file), `Alpha` (directory), `beta.md`
(file) the emitted order is `Alpha`, `beta.md`, `zeta.md`. -/
theorem c8_directory_listing :
    (∀ nodes : List MarkdownNode,
        ((sortedNodes nodes).map listItemHtml).length = nodes.length) ∧
      (∀ nodes : List MarkdownNode, List.Sorted listingLe (sortedNodes nodes)) ∧
      (∀ nodes : List MarkdownNode, List.Perm (sortedNodes nodes) nodes) ∧
      (∀ (d : Option String × List MarkdownNode) (n : String) (anc : List Ancestor),
        listItemHtml (.mk (.Directory d) n anc) =
          "<li class=\"directory-listing\"><a href=\"/"
            ++ ((file_name anc n).toStr?.getD "") ++ "\">" ++ n ++ "</a></li>") ∧
      (∀ (c : String) (n : String) (anc : List Ancestor),
        listItemHtml (.mk (.File c) n anc) =
          "<li class=\"file-listing\"><a href=\"/"
            ++ ((file_name anc n).toStr?.getD "") ++ "\">" ++ n ++ "</a></li>") ∧
      directory_list_html
          [.mk (.File "z") "zeta.md" [⟨"root", ""⟩],
            .mk (.Directory (none, [])) "Alpha" [⟨"root", ""⟩],
            .mk (.File "b") "beta.md" [⟨"root", ""⟩]] =
        "<ul><li class=\"directory-listing\"><a href=\"/Alpha\">Alpha</a></li><li class=\"file-listing\"><a href=\"/beta.html\">beta.md</a></li><li class=\"file-listing\"><a href=\"/zeta.html\">zeta.md</a></li></ul>" := by
  refine ⟨?_, ?_, ?_, ?_, ?_, ?_⟩
  · intro nodes
    simp [sortedNodes]
  · intro nodes
    exact List.sorted_insertionSort listingLe nodes
  · intro nodes
    exact List.perm_insertionSort listingLe nodes
  · intro d n anc
    rfl
  · intro c n anc
    rfl
  · set_option maxRecDepth 8000 in decide

/-! ### C9: the root never contributes a URL segment -/

/-- Extending a chain that satisfies the root-segment invariant preserves
it. -/
theorem chainOkB_extendChain : ∀ (anc : List Ancestor) (n : String),
    chainOkB anc = true → chainOkB (extendChain anc n) = true := by
  intro anc n h
  cases anc with
  | nil => simp [extendChain, chainOkB]
  | cons a t => simpa [extendChain, chainOkB] using h

/-- Every chain recorded by a successful child collection satisfies the
root-segment invariant when the incoming chain does. -/
theorem markdownEntries_chainsOk :
    ∀ (anc : List Ancestor) (dirName : String) (es : List (Except String DirEntry)),
      ∀ ms, chainOkB anc = true → markdownEntries anc dirName es = .ok ms →
        nodesChainsOk ms = true := by
  refine markdownEntries.induct
    (fun anc e => ∀ m, chainOkB anc = true → markdownOfEntry anc e = .ok m →
      nodeChainsOk m = true)
    (fun anc dirName es => ∀ ms, chainOkB anc = true → markdownEntries anc dirName es = .ok ms →
      nodesChainsOk ms = true)
    ?_ ?_ ?_ ?_ ?_ ?_ ?_ ?_ ?_ ?_ ?_
  · intro anc fn err m _ h
    simp [markdownOfEntry] at h
  · intro anc fn content m hok h
    injection h with h
    subst h
    simpa [nodeChainsOk] using hok
  · intro anc fn err m _ h
    simp [markdownOfEntry] at h
  · intro anc fn readme entries fileName err heq ih m hok h
    simp [markdownOfEntry, heq] at h
  · intro anc fn readme entries fileName children hch ih m hok h
    rw [show markdownOfEntry anc (.dirOk fn readme entries) =
        match markdownEntries (extendChain anc (decodeName fn)) (decodeName fn) entries with
        | .error e => .error e
        | .ok children => .ok (.mk (.Directory (readme, children)) (decodeName fn) anc)
      from rfl, hch] at h
    injection h with h
    subst h
    have hchildren := ih children (chainOkB_extendChain anc (decodeName fn) hok) hch
    simp [nodeChainsOk, hok, hchildren]
  · intro anc fn err m _ h
    simp [markdownOfEntry] at h
  · intro anc dirName ms _ h
    injection h with h
    subst h
    rfl
  · intro anc dirName err tail ms _ h
    simp [markdownEntries] at h
  · intro anc dirName e rest err herr _ ms _ h
    simp [markdownEntries, herr] at h
  · intro anc dirName e rest m hm e2 herr _ _ ms _ h
    simp [markdownEntries, hm, herr] at h
  · intro anc dirName e rest m hm children hch ihm ihrest ms hok h
    rw [show markdownEntries anc dirName (.ok e :: rest) =
        match markdownOfEntry anc e with
        | .error err => .error err
        | .ok m =>
          match markdownEntries anc dirName rest with
          | .error err => .error err
          | .ok ms => .ok (m :: ms)
      from rfl, hm, hch] at h
    injection h with h
    subst h
    have h1 := ihm m hok hm
    have h2 := ihrest children hok hch
    simp [nodesChainsOk, h1, h2]

/-- C9: the empty root chain satisfies the invariant, every recursive
extension preserves it, and every node of a successfully loaded tree
carries a chain whose first ancestor has an empty path segment. -/
theorem c9_root_chain_invariant :
    chainOkB [] = true ∧
      (∀ (anc : List Ancestor) (n : String),
        chainOkB anc = true → chainOkB (extendChain anc n) = true) ∧
      (∀ (title : String) (readme : Option String)
        (entries : List (Except String DirEntry)) (m : MarkdownNode),
        loadRoot title readme entries = .ok m → nodeChainsOk m = true) := by
  refine ⟨rfl, chainOkB_extendChain, ?_⟩
  intro title readme entries m h
  rw [show loadRoot title readme entries =
      match markdownEntries (extendChain [] title) title entries with
      | .error e => .error e
      | .ok children => .ok (.mk (.Directory (readme, children)) title [])
    from rfl] at h
  cases heq : markdownEntries (extendChain [] title) title entries with
  | error e =>
    rw [heq] at h
    exact absurd h (by simp)
  | ok children =>
    rw [heq] at h
    injection h with h
    subst h
    have hch := markdownEntries_chainsOk (extendChain [] title) title entries children
      (chainOkB_extendChain [] title rfl) heq
    simp [nodeChainsOk, chainOkB, hch]

/-- Witness for `c9_root_chain_invariant` at a concrete input. -/
theorem c9_root_chain_invariant_witness :
    loadRoot "root" none [.ok (.fileOk (OsString.ofString "a.md") "hi")] =
        .ok (.mk (.Directory (none, [.mk (.File "hi") "a.md" [⟨"root", ""⟩]])) "root" []) ∧
      chainOkB (extendChain [] "root") = true ∧
      nodeChainsOk
          (.mk (.Directory (none, [.mk (.File "hi") "a.md" [⟨"root", ""⟩]])) "root" []) = true :=
  ⟨rfl, c9_root_chain_invariant.2.1 [] "root" rfl,
    c9_root_chain_invariant.2.2 "root" none [.ok (.fileOk (OsString.ofString "a.md") "hi")] _ rfl⟩

end ArticleCompiler
